import Mathlib

/-!
Verification of the Ihmacs editing core (buffer, key decoder, dispatcher,
delimiter movement) via a shallow embedding of the Python source.

Text is modelled as `List Char`; Python string slicing `t[a:b]` (with
`0 ≤ a ≤ b`) is `(t.drop a).take (b - a)`, and `t[:a] + t[b:]` is
`t.take a ++ t.drop b` — `List.take`/`List.drop` clamp at the length
exactly as Python slices do.  Python `int` is `Int`; offsets stored in a
buffer are `Nat` (every store in the source is the result of a clamp to
`[0, len]` or a sum of non-negative quantities).
-/

namespace Ihmacs

/-- Embedding of `Buffer` from `buff.py`: the fields `_text`, `_point`,
`_mark`, `_modified` and `display_line` that the editing operations touch. -/
structure Buffer where
  text : List Char
  point : Nat
  mark : Nat
  modified : Bool
  display_line : Int
  deriving Repr, DecidableEq

/-- `Buffer.__init__`: empty text, `modified = False`, `point = mark = 0`,
`display_line = 0`. -/
def Buffer.init : Buffer :=
  { text := [], point := 0, mark := 0, modified := false, display_line := 0 }

/-- `Buffer._normalize_pos(pos)`: `max(0, min(pos, len(self.text)))`. -/
def Buffer.normalize_pos (b : Buffer) (pos : Int) : Nat :=
  (max 0 (min pos (b.text.length : Int))).toNat

/-- `Buffer.set_point(pos)`. -/
def Buffer.set_point (b : Buffer) (pos : Int) : Buffer :=
  { b with point := b.normalize_pos pos }

/-- `Buffer.set_mark(pos)`. -/
def Buffer.set_mark (b : Buffer) (pos : Int) : Buffer :=
  { b with mark := b.normalize_pos pos }

/-- `Buffer.insert(*args)`: the source joins its arguments into one string
`insert_text`; we model the operation on that joined string `s`.  Returns the
new buffer together with the returned (inserted) text. -/
def Buffer.insert (b : Buffer) (s : List Char) : Buffer × List Char :=
  let point := b.point
  let mark := b.mark
  let insert_len := s.length
  let newText := b.text.take point ++ s ++ b.text.drop point
  let newPoint := point + insert_len
  let newMark := if mark > point then mark + insert_len else mark
  ({ b with text := newText, point := newPoint, mark := newMark }, s)

/-- `Buffer.delete_char(chars)`.  Returns the new buffer together with the
returned (deleted) text. -/
def Buffer.delete_char (b : Buffer) (chars : Int) : Buffer × List Char :=
  let q := b.normalize_pos ((b.point : Int) + chars)
  let start := min b.point q
  let stop := max b.point q
  let deleted := (b.text.drop start).take (stop - start)
  let deleted_len := deleted.length
  let newText := b.text.take start ++ b.text.drop stop
  let newPoint := if chars < 0 then start else b.point
  let mark := b.mark
  let newMark :=
    if start ≤ mark ∧ mark ≤ stop then start
    else if mark > stop then mark - deleted_len
    else mark
  ({ b with text := newText, point := newPoint, mark := newMark }, deleted)

/-- `Buffer.delete_region()`.  Returns the new buffer together with the
returned (deleted) text. -/
def Buffer.delete_region (b : Buffer) : Buffer × List Char :=
  let start := min b.point b.mark
  let stop := max b.point b.mark
  let deleted := (b.text.drop start).take (stop - start)
  let newText := b.text.take start ++ b.text.drop stop
  ({ b with text := newText, point := start, mark := start }, deleted)

/-- The data-model invariant of §3: point and mark lie in `[0, len(text)]`
(the lower bound is inherent in `Nat`). -/
def Buffer.inv (b : Buffer) : Prop :=
  b.point ≤ b.text.length ∧ b.mark ≤ b.text.length

instance (b : Buffer) : Decidable b.inv := by
  unfold Buffer.inv; infer_instance

/-- C1: `insert(s)` produces `text[:p] + s + text[p:]`, point `p + len s`,
mark shifted by `len s` exactly when `mark > point`, and returns `s`. -/
theorem insert_spec (b : Buffer) (s : List Char) :
    (b.insert s).1.text = b.text.take b.point ++ s ++ b.text.drop b.point ∧
    (b.insert s).1.point = b.point + s.length ∧
    (b.insert s).1.mark =
      (if b.mark > b.point then b.mark + s.length else b.mark) ∧
    (b.insert s).2 = s := by
  refine ⟨rfl, rfl, ?_, rfl⟩
  simp [Buffer.insert]

lemma normalize_pos_le (b : Buffer) (pos : Int) :
    b.normalize_pos pos ≤ b.text.length := by
  unfold Buffer.normalize_pos
  omega

/-- C2: `delete_char(n)` removes exactly `text[start:stop]` and returns it,
moves point to `start` exactly when `n < 0`, and shifts or collapses the mark
as described, where `start`/`stop` are the sorted pair of `point` and
`clamp(point + n)`. -/
theorem delete_char_spec (b : Buffer) (n : Int) (start stop : Nat)
    (h : b.point ≤ b.text.length)
    (hs : start = min b.point (b.normalize_pos ((b.point : Int) + n)))
    (he : stop = max b.point (b.normalize_pos ((b.point : Int) + n))) :
    (b.delete_char n).2 = (b.text.drop start).take (stop - start) ∧
    (b.delete_char n).1.text = b.text.take start ++ b.text.drop stop ∧
    (b.delete_char n).1.point = (if n < 0 then start else b.point) ∧
    (b.delete_char n).1.mark =
      (if start ≤ b.mark ∧ b.mark ≤ stop then start
       else if b.mark > stop then b.mark - (stop - start)
       else b.mark) := by
  have hq := normalize_pos_le b ((b.point : Int) + n)
  subst hs he
  refine ⟨rfl, rfl, rfl, ?_⟩
  simp only [Buffer.delete_char, List.length_take, List.length_drop]
  have hstop : max b.point (b.normalize_pos ((b.point : Int) + n)) ≤ b.text.length := by
    omega
  split_ifs <;> omega

theorem delete_char_spec_witness :
    (2 : Nat) ≤ 3 ∧
    ((Buffer.delete_char ⟨['a','b','c'], 2, 1, false, 0⟩ (-2)).2 = ['a','b'] ∧
     (Buffer.delete_char ⟨['a','b','c'], 2, 1, false, 0⟩ (-2)).1.text = ['c'] ∧
     (Buffer.delete_char ⟨['a','b','c'], 2, 1, false, 0⟩ (-2)).1.point = 0 ∧
     (Buffer.delete_char ⟨['a','b','c'], 2, 1, false, 0⟩ (-2)).1.mark = 0) := by
  have h := delete_char_spec ⟨['a','b','c'], 2, 1, false, 0⟩ (-2) 0 2
    (by decide) (by decide) (by decide)
  refine ⟨by decide, ?_, ?_, ?_, ?_⟩ <;>
    simp only [h.1, h.2.1, h.2.2.1, h.2.2.2] <;> decide

/-- C3: no mutator of `buff.py` assigns `_modified`: `insert`, `delete_char`
and `delete_region` all leave the flag unchanged, and on a fresh buffer (where
it is `False`) it is still `False` after `insert("a")`. -/
theorem mutators_leave_modified_unchanged :
    (∀ (b : Buffer) (s : List Char) (n : Int),
      (b.insert s).1.modified = b.modified ∧
      (b.delete_char n).1.modified = b.modified ∧
      b.delete_region.1.modified = b.modified) ∧
    (Buffer.init.insert ['a']).1.modified = false := by
  exact ⟨fun b s n => ⟨rfl, rfl, rfl⟩, rfl⟩

/-- C10: `delete_region` always establishes `point == mark`, so a second call
deletes the empty span, returns the empty string, and leaves the whole buffer
state unchanged. -/
theorem delete_region_idempotent (b : Buffer) :
    b.delete_region.1.point = b.delete_region.1.mark ∧
    b.delete_region.1.delete_region.1 = b.delete_region.1 ∧
    b.delete_region.1.delete_region.2 = [] := by
  obtain ⟨t, p, m, mo, d⟩ := b
  refine ⟨rfl, ?_, ?_⟩ <;>
    simp [Buffer.delete_region]

/-- C6: `insert(s)` followed by `delete_char(-len(s))` restores the original
text and point, for non-empty `s` (round-trip law). -/
theorem insert_delete_round_trip (b : Buffer) (s : List Char)
    (hp : b.point ≤ b.text.length) (hne : s ≠ []) :
    ((b.insert s).1.delete_char (-(s.length : Int))).1.text = b.text ∧
    ((b.insert s).1.delete_char (-(s.length : Int))).1.point = b.point := by
  have hk : 0 < s.length := List.length_pos.mpr hne
  have htl : (b.text.take b.point).length = b.point := by
    simp only [List.length_take]; omega
  have h1t : (b.insert s).1.text =
      b.text.take b.point ++ s ++ b.text.drop b.point := rfl
  have h1p : (b.insert s).1.point = b.point + s.length := rfl
  have hlen1 : (b.insert s).1.text.length = b.text.length + s.length := by
    rw [h1t]
    simp only [List.length_append, List.length_take, List.length_drop]
    omega
  have hq : (b.insert s).1.normalize_pos
      (((b.insert s).1.point : Int) + -(s.length : Int)) = b.point := by
    unfold Buffer.normalize_pos
    rw [hlen1, h1p]
    omega
  have hmin : min (b.insert s).1.point ((b.insert s).1.normalize_pos
      (((b.insert s).1.point : Int) + -(s.length : Int))) = b.point := by
    rw [hq, h1p]; omega
  have hmax : max (b.insert s).1.point ((b.insert s).1.normalize_pos
      (((b.insert s).1.point : Int) + -(s.length : Int))) = b.point + s.length := by
    rw [hq, h1p]; omega
  constructor
  · have hdt : ((b.insert s).1.delete_char (-(s.length : Int))).1.text =
        (b.insert s).1.text.take (min (b.insert s).1.point
          ((b.insert s).1.normalize_pos
            (((b.insert s).1.point : Int) + -(s.length : Int)))) ++
        (b.insert s).1.text.drop (max (b.insert s).1.point
          ((b.insert s).1.normalize_pos
            (((b.insert s).1.point : Int) + -(s.length : Int)))) := rfl
    rw [hdt, hmin, hmax, h1t, List.append_assoc, List.take_left' htl,
      ← List.append_assoc,
      List.drop_left' (show (b.text.take b.point ++ s).length = b.point + s.length
        by simp only [List.length_append, htl]),
      List.take_append_drop]
  · have hdp : ((b.insert s).1.delete_char (-(s.length : Int))).1.point =
        if -(s.length : Int) < 0 then
          min (b.insert s).1.point ((b.insert s).1.normalize_pos
            (((b.insert s).1.point : Int) + -(s.length : Int)))
        else (b.insert s).1.point := rfl
    rw [hdp, hmin, if_pos (show -(s.length : Int) < 0 by omega)]

theorem insert_delete_round_trip_witness :
    (1 : Nat) ≤ 2 ∧ (['a','b'] : List Char) ≠ [] ∧
    ((Buffer.insert ⟨['x','y'], 1, 0, false, 0⟩ ['a','b']).1.delete_char
        (-((['a','b'] : List Char).length : Int))).1.text = ['x','y'] ∧
    ((Buffer.insert ⟨['x','y'], 1, 0, false, 0⟩ ['a','b']).1.delete_char
        (-((['a','b'] : List Char).length : Int))).1.point = 1 := by
  have h := insert_delete_round_trip ⟨['x','y'], 1, 0, false, 0⟩ ['a','b']
    (by decide) (by decide)
  exact ⟨by decide, by decide, h.1, h.2⟩

/-- C7 counterexample: on text `"ab"` with `point = 1` and `n = 1`, no clamp
fires in either call (`clamp(1+1) = 2` and, at the resulting point,
`clamp(1-1) = 0`), yet `delete_char(1)` followed by `delete_char(-1)` yields
`""`, not the original `"ab"`. -/
theorem delete_delete_not_round_trip :
    Buffer.normalize_pos ⟨['a','b'], 1, 0, false, 0⟩ (1 + 1) = 2 ∧
    ((⟨['a','b'], 1, 0, false, 0⟩ : Buffer).delete_char 1).1.point = 1 ∧
    Buffer.normalize_pos ((⟨['a','b'], 1, 0, false, 0⟩ : Buffer).delete_char 1).1
      (1 + -1) = 0 ∧
    (((⟨['a','b'], 1, 0, false, 0⟩ : Buffer).delete_char 1).1.delete_char
      (-1)).1.text ≠ ['a','b'] := by
  decide

lemma splice_restore (t : List Char) (start stop : Nat)
    (h1 : start ≤ stop) (h2 : stop ≤ t.length) :
    (t.take start ++ t.drop stop).take start ++
      (t.drop start).take (stop - start) ++
      (t.take start ++ t.drop stop).drop start = t := by
  have htl : (t.take start).length = start := by
    simp only [List.length_take]; omega
  rw [List.append_assoc, List.take_left' htl, List.drop_left' htl]
  have hdd : t.drop stop = (t.drop start).drop (stop - start) := by
    rw [List.drop_drop]
    congr 1
    omega
  rw [hdd, List.take_append_drop, List.take_append_drop]

/-- C7 amended: `delete_char(n)` followed by `insert` of the deleted text it
returned (at the resulting point) restores the original text. -/
theorem delete_insert_round_trip (b : Buffer) (n : Int)
    (hp : b.point ≤ b.text.length) :
    ((b.delete_char n).1.insert (b.delete_char n).2).1.text = b.text := by
  have hq := normalize_pos_le b ((b.point : Int) + n)
  have hpoint : (b.delete_char n).1.point =
      min b.point (b.normalize_pos ((b.point : Int) + n)) := by
    by_cases hn : n < 0
    · show (if n < 0 then
          min b.point (b.normalize_pos ((b.point : Int) + n)) else b.point) = _
      rw [if_pos hn]
    · have hge : b.point ≤ b.normalize_pos ((b.point : Int) + n) := by
        unfold Buffer.normalize_pos
        omega
      show (if n < 0 then
          min b.point (b.normalize_pos ((b.point : Int) + n)) else b.point) = _
      rw [if_neg hn, Nat.min_eq_left hge]
  have hdt : (b.delete_char n).1.text =
      b.text.take (min b.point (b.normalize_pos ((b.point : Int) + n))) ++
      b.text.drop (max b.point (b.normalize_pos ((b.point : Int) + n))) := rfl
  have hd2 : (b.delete_char n).2 =
      (b.text.drop (min b.point (b.normalize_pos ((b.point : Int) + n)))).take
        (max b.point (b.normalize_pos ((b.point : Int) + n)) -
          min b.point (b.normalize_pos ((b.point : Int) + n))) := rfl
  have hmain : ((b.delete_char n).1.insert (b.delete_char n).2).1.text =
      (b.delete_char n).1.text.take (b.delete_char n).1.point ++
      (b.delete_char n).2 ++
      (b.delete_char n).1.text.drop (b.delete_char n).1.point := rfl
  rw [hmain, hpoint, hdt, hd2]
  exact splice_restore b.text _ _ (by omega) (by omega)

theorem delete_insert_round_trip_witness :
    (1 : Nat) ≤ 2 ∧
    (((⟨['a','b'], 1, 0, false, 0⟩ : Buffer).delete_char 1).1.insert
      ((⟨['a','b'], 1, 0, false, 0⟩ : Buffer).delete_char 1).2).1.text =
      ['a','b'] :=
  ⟨by decide, delete_insert_round_trip ⟨['a','b'], 1, 0, false, 0⟩ 1 (by decide)⟩

/-- The buffer operations named by the invariant claim. -/
inductive Op where
  | setPoint (pos : Int)
  | setMark (pos : Int)
  | insert (s : List Char)
  | deleteChar (n : Int)
  | deleteRegion
  deriving Repr

def Op.apply (op : Op) (b : Buffer) : Buffer :=
  match op with
  | .setPoint pos => b.set_point pos
  | .setMark pos => b.set_mark pos
  | .insert s => (b.insert s).1
  | .deleteChar n => (b.delete_char n).1
  | .deleteRegion => b.delete_region.1

def applyOps (ops : List Op) (b : Buffer) : Buffer :=
  ops.foldl (fun acc op => op.apply acc) b

lemma set_point_inv (b : Buffer) (pos : Int) (h : b.inv) :
    (b.set_point pos).inv := by
  obtain ⟨h1, h2⟩ := h
  unfold Buffer.inv Buffer.set_point Buffer.normalize_pos
  simp only []
  omega

lemma set_mark_inv (b : Buffer) (pos : Int) (h : b.inv) :
    (b.set_mark pos).inv := by
  obtain ⟨h1, h2⟩ := h
  unfold Buffer.inv Buffer.set_mark Buffer.normalize_pos
  simp only []
  omega

lemma insert_inv (b : Buffer) (s : List Char) (h : b.inv) :
    (b.insert s).1.inv := by
  obtain ⟨h1, h2⟩ := h
  unfold Buffer.inv Buffer.insert
  simp only [List.length_append, List.length_take, List.length_drop]
  split_ifs <;> omega

lemma delete_char_inv (b : Buffer) (n : Int) (h : b.inv) :
    (b.delete_char n).1.inv := by
  obtain ⟨h1, h2⟩ := h
  unfold Buffer.inv Buffer.delete_char Buffer.normalize_pos
  simp only [List.length_append, List.length_take, List.length_drop]
  split_ifs <;> omega

lemma delete_region_inv (b : Buffer) (h : b.inv) :
    b.delete_region.1.inv := by
  obtain ⟨h1, h2⟩ := h
  unfold Buffer.inv Buffer.delete_region
  simp only [List.length_append, List.length_take, List.length_drop]
  omega

lemma op_apply_inv (op : Op) (b : Buffer) (h : b.inv) : (op.apply b).inv := by
  cases op with
  | setPoint pos => exact set_point_inv b pos h
  | setMark pos => exact set_mark_inv b pos h
  | insert s => exact insert_inv b s h
  | deleteChar n => exact delete_char_inv b n h
  | deleteRegion => exact delete_region_inv b h

lemma applyOps_inv (ops : List Op) (b : Buffer) (h : b.inv) :
    (applyOps ops b).inv := by
  induction ops generalizing b with
  | nil => exact h
  | cons op rest ih => exact ih (op.apply b) (op_apply_inv op b h)

/-- C9: every sequence of `set_point`, `set_mark`, `insert`, `delete_char`,
`delete_region` preserves `0 ≤ point, mark ≤ len(text)`, and `set_point` /
`set_mark` clamp an arbitrary integer argument into `[0, len(text)]` rather
than raising. -/
theorem buffer_ops_invariant (ops : List Op) (b : Buffer) (pos : Int)
    (h : b.inv) :
    (applyOps ops b).inv ∧
    ((b.set_point pos).point : Int) = max 0 (min pos (b.text.length : Int)) ∧
    ((b.set_mark pos).mark : Int) = max 0 (min pos (b.text.length : Int)) := by
  refine ⟨applyOps_inv ops b h, ?_, ?_⟩
  · unfold Buffer.set_point Buffer.normalize_pos
    simp only []
    omega
  · unfold Buffer.set_mark Buffer.normalize_pos
    simp only []
    omega

theorem buffer_ops_invariant_witness :
    (⟨['x','y'], 1, 2, false, 0⟩ : Buffer).inv ∧
    ((applyOps [Op.setPoint 5, Op.insert ['a'], Op.deleteChar (-1),
        Op.deleteRegion, Op.setMark (-3)] ⟨['x','y'], 1, 2, false, 0⟩).inv ∧
      (((⟨['x','y'], 1, 2, false, 0⟩ : Buffer).set_point (-3)).point : Int) =
        max 0 (min (-3) (((⟨['x','y'], 1, 2, false, 0⟩ : Buffer).text.length : Int))) ∧
      (((⟨['x','y'], 1, 2, false, 0⟩ : Buffer).set_mark (-3)).mark : Int) =
        max 0 (min (-3) (((⟨['x','y'], 1, 2, false, 0⟩ : Buffer).text.length : Int)))) :=
  ⟨by decide,
    buffer_ops_invariant [Op.setPoint 5, Op.insert ['a'], Op.deleteChar (-1),
      Op.deleteRegion, Op.setMark (-3)] ⟨['x','y'], 1, 2, false, 0⟩ (-3) (by decide)⟩

/-!
`forward_by_delimiter` / `backward_by_delimiter` from `basic_editing.py`.
`delimiter_regex.finditer(text)` is modelled as a list `ms` of
`(start, stop)` offset pairs of the delimiter matches; the
`try ... except IndexError` over `unit_ends[num-1]` / `unit_starts[-num]`
is modelled as the explicit index check (`Option.getD`, and the guard
`1 ≤ num ≤ len` under which a Python negative index `-num` is in range).
The mutual delegation between the two Python functions is unfolded one
step into shared `_core` bodies, which is what the delegated call (whose
count is then positive) executes.
-/

def forward_core (ms : List (Nat × Nat)) (num : Int) (b : Buffer) : Buffer :=
  let unit_ends := (ms.map Prod.fst).filter (fun v => b.point < v)
  let new_point : Nat := (unit_ends[(num - 1).toNat]?).getD b.text.length
  b.set_point (new_point : Int)

def backward_core (ms : List (Nat × Nat)) (num : Int) (b : Buffer) : Buffer :=
  let unit_starts := (ms.map Prod.snd).filter (fun v => v < b.point)
  let new_point : Nat :=
    if 1 ≤ num ∧ num ≤ (unit_starts.length : Int) then
      unit_starts.getD (unit_starts.length - num.toNat) 0
    else 0
  b.set_point (new_point : Int)

def forward_by_delimiter (ms : List (Nat × Nat)) (num : Int) (b : Buffer) :
    Buffer :=
  if num = 0 then b
  else if num < 0 then backward_core ms (-num) b
  else forward_core ms num b

def backward_by_delimiter (ms : List (Nat × Nat)) (num : Int) (b : Buffer) :
    Buffer :=
  if num = 0 then b
  else if num < 0 then forward_core ms (-num) b
  else backward_core ms num b

lemma forward_by_delimiter_preserves (ms : List (Nat × Nat)) (n : Int)
    (b : Buffer) :
    (forward_by_delimiter ms n b).text = b.text ∧
    (forward_by_delimiter ms n b).mark = b.mark := by
  unfold forward_by_delimiter
  split_ifs <;> exact ⟨rfl, rfl⟩

lemma backward_by_delimiter_preserves (ms : List (Nat × Nat)) (n : Int)
    (b : Buffer) :
    (backward_by_delimiter ms n b).text = b.text ∧
    (backward_by_delimiter ms n b).mark = b.mark := by
  unfold backward_by_delimiter
  split_ifs <;> exact ⟨rfl, rfl⟩

lemma forward_core_point (ms : List (Nat × Nat)) (n : Int) (b : Buffer)
    (hle : ∀ x ∈ (ms.map Prod.fst).filter (fun v => b.point < v),
      x ≤ b.text.length) :
    (forward_core ms n b).point =
      (((ms.map Prod.fst).filter (fun v => b.point < v))[(n - 1).toNat]?).getD
        b.text.length := by
  have hb : (((ms.map Prod.fst).filter
        (fun v => b.point < v))[(n - 1).toNat]?).getD b.text.length ≤
      b.text.length := by
    cases h : ((ms.map Prod.fst).filter (fun v => b.point < v))[(n - 1).toNat]? with
    | none => simp
    | some v =>
      simp only [h, Option.getD_some]
      exact hle v (List.getElem?_mem h)
  unfold forward_core Buffer.set_point Buffer.normalize_pos
  simp only []
  omega

lemma backward_core_point (ms : List (Nat × Nat)) (n : Int) (b : Buffer)
    (hle : ∀ x ∈ (ms.map Prod.snd).filter (fun v => v < b.point),
      x ≤ b.text.length)
    (hn : 1 ≤ n) :
    (backward_core ms n b).point =
      (if n ≤ ((((ms.map Prod.snd).filter (fun v => v < b.point)).length : Nat) : Int)
       then ((ms.map Prod.snd).filter (fun v => v < b.point)).getD
          (((ms.map Prod.snd).filter (fun v => v < b.point)).length - n.toNat) 0
       else 0) := by
  have hb : ∀ i : Nat, ((ms.map Prod.snd).filter (fun v => v < b.point)).getD i 0 ≤
      b.text.length := by
    intro i
    rw [List.getD_eq_getElem?_getD]
    cases h : ((ms.map Prod.snd).filter (fun v => v < b.point))[i]? with
    | none => simp
    | some v =>
      simp only [h, Option.getD_some]
      exact hle v (List.getElem?_mem h)
  unfold backward_core Buffer.set_point Buffer.normalize_pos
  simp only []
  by_cases hc : n ≤ ((((ms.map Prod.snd).filter (fun v => v < b.point)).length : Nat) : Int)
  · rw [if_pos ⟨hn, hc⟩, if_pos hc]
    have := hb (((ms.map Prod.snd).filter (fun v => v < b.point)).length - n.toNat)
    omega
  · rw [if_neg (fun h => hc h.2), if_neg hc]
    omega

/-- C8: for delimiter matches within the text and `n > 0`, forward movement
goes to the `n`-th (1-indexed) match-start offset strictly after point (or to
`len(text)` when fewer exist), backward movement to the `n`-th-from-last
match-end offset strictly before point (or to `0` when fewer exist); both only
move point; negative `n` delegates to the opposite direction with `|n|`, and
`n = 0` changes nothing. -/
theorem delimiter_movement_spec (ms : List (Nat × Nat)) (n : Int) (b : Buffer)
    (hm : ∀ pr ∈ ms, pr.1 ≤ b.text.length ∧ pr.2 ≤ b.text.length) :
    (0 < n →
      (forward_by_delimiter ms n b).point =
        (((ms.map Prod.fst).filter (fun v => b.point < v))[(n - 1).toNat]?).getD
          b.text.length ∧
      (backward_by_delimiter ms n b).point =
        (if n ≤ ((((ms.map Prod.snd).filter (fun v => v < b.point)).length : Nat) : Int)
         then ((ms.map Prod.snd).filter (fun v => v < b.point)).getD
            (((ms.map Prod.snd).filter (fun v => v < b.point)).length - n.toNat) 0
         else 0) ∧
      (forward_by_delimiter ms n b).text = b.text ∧
      (forward_by_delimiter ms n b).mark = b.mark ∧
      (backward_by_delimiter ms n b).text = b.text ∧
      (backward_by_delimiter ms n b).mark = b.mark) ∧
    (n < 0 →
      forward_by_delimiter ms n b = backward_by_delimiter ms (-n) b ∧
      backward_by_delimiter ms n b = forward_by_delimiter ms (-n) b) ∧
    (n = 0 →
      forward_by_delimiter ms n b = b ∧ backward_by_delimiter ms n b = b) := by
  have hfle : ∀ x ∈ (ms.map Prod.fst).filter (fun v => b.point < v),
      x ≤ b.text.length := by
    intro x hx
    obtain ⟨hx1, _⟩ := List.mem_filter.mp hx
    obtain ⟨pr, hpr, rfl⟩ := List.mem_map.mp hx1
    exact (hm pr hpr).1
  have hble : ∀ x ∈ (ms.map Prod.snd).filter (fun v => v < b.point),
      x ≤ b.text.length := by
    intro x hx
    obtain ⟨hx1, _⟩ := List.mem_filter.mp hx
    obtain ⟨pr, hpr, rfl⟩ := List.mem_map.mp hx1
    exact (hm pr hpr).2
  refine ⟨?_, ?_, ?_⟩
  · intro hn
    have hne : ¬ n = 0 := by omega
    have hnlt : ¬ n < 0 := by omega
    have hf : forward_by_delimiter ms n b = forward_core ms n b := by
      unfold forward_by_delimiter
      rw [if_neg hne, if_neg hnlt]
    have hbk : backward_by_delimiter ms n b = backward_core ms n b := by
      unfold backward_by_delimiter
      rw [if_neg hne, if_neg hnlt]
    refine ⟨?_, ?_, (forward_by_delimiter_preserves ms n b).1,
      (forward_by_delimiter_preserves ms n b).2,
      (backward_by_delimiter_preserves ms n b).1,
      (backward_by_delimiter_preserves ms n b).2⟩
    · rw [hf]
      exact forward_core_point ms n b hfle
    · rw [hbk]
      exact backward_core_point ms n b hble (by omega)
  · intro hn
    have hne : ¬ n = 0 := by omega
    have h1 : ¬ (-n) = 0 := by omega
    have h2 : ¬ (-n) < 0 := by omega
    constructor
    · unfold forward_by_delimiter backward_by_delimiter
      rw [if_neg hne, if_pos hn, if_neg h1, if_neg h2]
    · unfold forward_by_delimiter backward_by_delimiter
      rw [if_neg hne, if_pos hn, if_neg h1, if_neg h2]
  · intro hn
    subst hn
    constructor <;> simp [forward_by_delimiter, backward_by_delimiter]

theorem delimiter_movement_spec_witness :
    (∀ pr ∈ [((2 : Nat), (3 : Nat))],
      pr.1 ≤ (['h','i',' ','y','o'] : List Char).length ∧
      pr.2 ≤ (['h','i',' ','y','o'] : List Char).length) ∧
    (forward_by_delimiter [((2 : Nat), (3 : Nat))] 1
      ⟨['h','i',' ','y','o'], 0, 0, false, 0⟩).point = 2 ∧
    (backward_by_delimiter [((2 : Nat), (3 : Nat))] 1
      ⟨['h','i',' ','y','o'], 4, 0, false, 0⟩).point = 3 := by
  refine ⟨by decide, ?_, ?_⟩
  · have h := delimiter_movement_spec [((2 : Nat), (3 : Nat))] 1
      ⟨['h','i',' ','y','o'], 0, 0, false, 0⟩ (by decide)
    rw [(h.1 (by decide)).1]
    decide
  · have h := delimiter_movement_spec [((2 : Nat), (3 : Nat))] 1
      ⟨['h','i',' ','y','o'], 4, 0, false, 0⟩ (by decide)
    rw [(h.1 (by decide)).2.1]
    decide

/-!
`Controller.read_key` from `controller.py`.  The curses boundary:
`window.getch()` yields an integer code; in `nodelay` mode it yields `-1`
(curses `ERR`) when no input is pending, modelled by `Option.getD (-1)`.
`curses.unctrl(c)` for `0 < c < 32` is `"^" + chr(c + 64)`, so
`chr(curses.unctrl(c)[1]).lower()` is `Char.toLower (Char.ofNat (c + 64))`.
`curses.KEY_MIN` is `0o401 = 257`; `curses.keyname` for keypad codes is an
external table passed in as `keyname`.  The classification writes the
`control` and `facekey` variables of the source; `read_key` appends
`control + meta + facekey`.
-/

def ctrl_letter (c : Int) : String :=
  String.singleton (Char.toLower (Char.ofNat (c.toNat + 64)))

def classify (keyname : Int → String) (facekey : Int) : String × String :=
  if facekey = 0 then ("C-", " ")
  else if 1 ≤ facekey ∧ facekey ≤ 26 then ("C-", ctrl_letter facekey)
  else if facekey = 27 then ("", "ESC")
  else if 28 ≤ facekey ∧ facekey ≤ 31 then ("C-", ctrl_letter facekey)
  else if 32 ≤ facekey ∧ facekey ≤ 126 then
    ("", String.singleton (Char.ofNat facekey.toNat))
  else if facekey = 127 then ("", "DEL")
  else if 128 ≤ facekey ∧ facekey ≤ 255 then
    ("", String.singleton (Char.ofNat facekey.toNat))
  else if 257 ≤ facekey then
    ("", if keyname facekey = "KEY_BACKSPACE" then "DEL" else keyname facekey)
  else ("", "ESC")

def read_key (keyname : Int → String) (first : Int) (second : Option Int) :
    String :=
  let meta := if first = 27 then "M-" else ""
  let facekey := if first = 27 then second.getD (-1) else first
  let cf := classify keyname facekey
  cf.1 ++ meta ++ cf.2

/-- C4 counterexample: a lone ESC (raw code 27, no second code available in
the poll) is emitted as `"M-ESC"`, not `"ESC"`: the `meta = "M-"` chosen on
seeing 27 is still prepended to the fallback classification of the failed
read's `-1` sentinel. -/
theorem esc_alone_not_esc_token :
    read_key (fun _ => "") 27 none ≠ "ESC" ∧
    read_key (fun _ => "") 27 none = "M-ESC" := by
  constructor
  · decide
  · rfl

/-- C4 amended: in State B, an available second code `c` yields the token
`control ++ "M-" ++ face` where `(control, face)` is `c`'s table
classification (so `[27, 102]` yields `"M-f"`, while a control code would
yield e.g. `"C-M-f"`, the control prefix outside the meta prefix); an
unavailable second code yields `"M-ESC"`. -/
theorem meta_key_decoding (kn : Int → String) (c : Int) :
    read_key kn 27 (some c) =
      (classify kn c).1 ++ "M-" ++ (classify kn c).2 ∧
    read_key kn 27 none = "M-ESC" ∧
    read_key kn 27 (some 102) = "M-f" := by
  refine ⟨rfl, ?_, ?_⟩
  · show (classify kn (-1)).1 ++ "M-" ++ (classify kn (-1)).2 = "M-ESC"
    have h : classify kn (-1) = ("", "ESC") := rfl
    rw [h]
    decide
  · show (classify kn 102).1 ++ "M-" ++ (classify kn 102).2 = "M-f"
    have h : classify kn 102 = ("", "f") := rfl
    rw [h]
    decide

/-- Modelled from the spec: `Buffer.line` is used by
`Controller._ensure_valid_point` but is not defined in `src/buff.py`.
§6 describes it as the buffer's "derived current-line index": the index of
the line containing point, i.e. the number of line breaks in `text[:point]`. -/
def Buffer.line (b : Buffer) : Int :=
  (((b.text.take b.point).count '\n' : Nat) : Int)

/-- Modelled from the spec: `Buffer.scroll_buffer(n)` is used by
`Controller._ensure_valid_point` but is not defined in `src/buff.py`.
§4.5: viewport scroll adjusts `displayLine` by `n` (scrolling up increases
it, revealing later content). -/
def Buffer.scroll_buffer (b : Buffer) (n : Int) : Buffer :=
  { b with display_line := b.display_line + n }

/-- The slice of the global Ihmacs state that `Controller.run_edit` and
`Controller._ensure_valid_point` read: the active buffer and the terminal
line count (`ihmacs_state.term_size`'s first component). -/
structure EditorState where
  buff : Buffer
  term_lines : Int
  deriving Repr

/-- `Controller._ensure_valid_point`. -/
def ensure_valid_point (st : EditorState) : EditorState :=
  let buff := st.buff
  let view_min := buff.display_line
  let view_max := view_min + st.term_lines - 2
  let current_line := buff.line
  let buff1 :=
    if current_line < view_min then buff.scroll_buffer (current_line - view_min)
    else buff
  let buff2 :=
    if current_line ≥ view_max then
      buff1.scroll_buffer (current_line - view_max + 1)
    else buff1
  { st with buff := buff2 }

/-- `Controller.run_edit(func)`: run the editing function, then ensure point
lies within a valid range of the view. -/
def run_edit (func : EditorState → EditorState) (st : EditorState) :
    EditorState :=
  ensure_valid_point (func st)

lemma ensure_valid_point_spec (u : EditorState) (h : 3 ≤ u.term_lines) :
    (ensure_valid_point u).buff.display_line ≤ (ensure_valid_point u).buff.line ∧
    (ensure_valid_point u).buff.line ≤
      (ensure_valid_point u).buff.display_line +
        (ensure_valid_point u).term_lines - 2 ∧
    (ensure_valid_point u).buff.text = u.buff.text ∧
    (ensure_valid_point u).buff.point = u.buff.point ∧
    (ensure_valid_point u).term_lines = u.term_lines := by
  simp only [ensure_valid_point, Buffer.scroll_buffer, Buffer.line]
  split_ifs <;> refine ⟨?_, ?_, ?_, ?_, ?_⟩ <;>
    first | trivial | (dsimp only; omega)

/-- C5: after any command invocation through `run_edit`, the line containing
point lies within `[displayLine, displayLine + termLines - 2]` (terminal at
least 3 lines tall); only the buffer's `display_line` — never its text or
point — is adjusted to restore this. -/
theorem run_edit_view_invariant (f : EditorState → EditorState)
    (st : EditorState) (h : 3 ≤ (f st).term_lines) :
    (run_edit f st).buff.display_line ≤ (run_edit f st).buff.line ∧
    (run_edit f st).buff.line ≤
      (run_edit f st).buff.display_line + (run_edit f st).term_lines - 2 ∧
    (run_edit f st).buff.text = (f st).buff.text ∧
    (run_edit f st).buff.point = (f st).buff.point := by
  have hs := ensure_valid_point_spec (f st) h
  exact ⟨hs.1, hs.2.1, hs.2.2.1, hs.2.2.2.1⟩

theorem run_edit_view_invariant_witness :
    (3 : Int) ≤ 3 ∧
    ((run_edit (fun s => s) ⟨⟨['a'], 0, 0, false, 5⟩, 3⟩).buff.display_line ≤
      (run_edit (fun s => s) ⟨⟨['a'], 0, 0, false, 5⟩, 3⟩).buff.line ∧
    (run_edit (fun s => s) ⟨⟨['a'], 0, 0, false, 5⟩, 3⟩).buff.line ≤
      (run_edit (fun s => s) ⟨⟨['a'], 0, 0, false, 5⟩, 3⟩).buff.display_line +
        (run_edit (fun s => s) ⟨⟨['a'], 0, 0, false, 5⟩, 3⟩).term_lines - 2 ∧
    (run_edit (fun s => s) ⟨⟨['a'], 0, 0, false, 5⟩, 3⟩).buff.text =
      ((fun s => s) (⟨⟨['a'], 0, 0, false, 5⟩, 3⟩ : EditorState)).buff.text ∧
    (run_edit (fun s => s) ⟨⟨['a'], 0, 0, false, 5⟩, 3⟩).buff.point =
      ((fun s => s) (⟨⟨['a'], 0, 0, false, 5⟩, 3⟩ : EditorState)).buff.point) :=
  ⟨by decide,
    run_edit_view_invariant (fun s => s) ⟨⟨['a'], 0, 0, false, 5⟩, 3⟩ (by decide)⟩
